import Mathlib

/-!
Shallow embedding of `ksym_mod.c` from the sysklogd repository: the kernel
loadable-module symbol catalog builder (`InitMsyms`, `AddModule`,
`AddSymbol`, `FreeModules`, `symsort`) and the address resolver
(`LookupModuleSymbol`).

Modelling conventions:
* The target platform of this code is 32-bit Linux 2.x, where `int` and
  `unsigned long` are both 32 bits wide; machine words are modelled as `Nat`
  with explicit reduction modulo `W = 2 ^ 32` wherever the C arithmetic can
  wrap (unsigned subtraction, the `addr + size * 4096` end-of-module bound).
* The kernel's `query_module` interface is abstracted as a `QueryService`
  record with one operation per query kind (`QM_MODULES`, `QM_INFO`,
  `QM_SYMBOLS`).  A capacity-taking query returns `QRes.ok` on success
  (result 0 in C), `QRes.nospc` for "buffer too small" (result < 0 with
  `errno == ENOSPC`), and `QRes.err` for any other failure.
* The C retry loops (`do { ... } while (result < 0)`) have no intrinsic
  termination bound, so the loop is given explicit fuel; exhausting the fuel
  models non-termination and is reported as `none`.
* Host allocation (`malloc`/`realloc`/`strdup`) is modelled as always
  succeeding; the C allocation-failure branches abort just like `QRes.err`
  and no claim below distinguishes them.
* `qsort` with the `symsort` comparator (ascending by `value`) is embedded
  as `List.insertionSort` over the same ordering; `qsort` guarantees only a
  sorted permutation and symbol ties are explicitly unspecified upstream.
-/

namespace Ksym

/-- Word size of the target platform: `unsigned long` is 32 bits. -/
def W : Nat := 2 ^ 32

/-- C unsigned subtraction `a - b` at width `W` (wraps below zero). -/
def usub (a b : Nat) : Nat := (a % W + W - b % W) % W

/-- Entry of a module's `sym_array`: `struct sym_table` from ksym_mod.c
(`unsigned long value; char *name;`). -/
structure SymT where
  value : Nat
  name : String
deriving DecidableEq, Repr

/-- The ordering used by the `symsort` comparator passed to `qsort`:
ascending by symbol address. -/
def symLe (a b : SymT) : Prop := a.value ≤ b.value

instance : DecidableRel symLe := fun a b => inferInstanceAs (Decidable (a.value ≤ b.value))

instance : IsTotal SymT symLe := ⟨fun a b => Nat.le_total a.value b.value⟩

instance : IsTrans SymT symLe := ⟨fun _ _ _ => Nat.le_trans⟩

/-- `struct Module` from ksym_mod.c, flattened: `name` (strdup'd module
name), `addr` (`module_info.addr`, the base address), `size`
(`module.size`, in 4096-byte pages), and the growable `sym_array` with its
`num_syms` count (the list length). -/
structure Module where
  name : String
  addr : Nat
  size : Nat
  syms : List SymT
deriving DecidableEq, Repr

/-- The module-global mutable state of ksym_mod.c: `sym_array_modules`
with `num_modules` (the list length) and the `have_modules` flag. -/
structure KState where
  modules : List Module
  have_modules : Bool
deriving DecidableEq, Repr

/-- Result of one capacity-taking `query_module` call: success with data
(result 0), "buffer too small" (result < 0, `errno == ENOSPC`), or any
other failure (result < 0, other `errno`). -/
inductive QRes (α : Type) where
  | ok (val : α)
  | nospc
  | err
deriving DecidableEq

/-- Module metadata delivered by a `QM_INFO` query: base address and size
in pages. -/
structure ModInfo where
  addr : Nat
  size : Nat
deriving DecidableEq, Repr

/-- One raw symbol entry delivered by a `QM_SYMBOLS` query
(`struct module_symbol`): an address and the name extracted from the
offset-into-buffer encoding. -/
structure RawSym where
  value : Nat
  name : String
deriving DecidableEq, Repr

/-- The external module/symbol query service backing `query_module`.
`listModules c` is `query_module(NULL, QM_MODULES, buf, c, &rtn)`,
`getInfo n` is `query_module(n, QM_INFO, ...)` (`none` models failure),
and `listSymbols n c` is `query_module(n, QM_SYMBOLS, buf, c, &rtn)`. -/
structure QueryService where
  listModules : Nat → QRes (List String)
  getInfo : String → Option ModInfo
  listSymbols : String → Nat → QRes (List RawSym)

/-- The grow-and-retry buffer loop shared by `InitMsyms` (lines 216-238,
seed 32) and `AddModule` (lines 433-455, seed 128): each round first
doubles the size (`modsize += modsize`), queries, aborts on a non-`ENOSPC`
failure (`Except.error ()`), retries on `ENOSPC`, and exits the loop with
the data on success.  `none` means the fuel ran out (the C loop would
still be running). -/
def growQuery {α : Type} (q : Nat → QRes α) : Nat → Nat → Option (Except Unit α)
  | _, 0 => none
  | size, fuel + 1 =>
    match q (size + size) with
    | QRes.ok a => some (Except.ok a)
    | QRes.nospc => growQuery q (size + size) fuel
    | QRes.err => some (Except.error ())

/-- `AddSymbol` (lines 502-536): append one entry to the module's
`sym_array`, with the qualified name `"<module name>:<symbol name>"` built
by the `strcpy`/`strcat` sequence.  Allocation is modelled as succeeding. -/
def AddSymbol (mp : Module) (address : Nat) (symbol : String) : Module :=
  { mp with syms := mp.syms ++ [⟨address, mp.name ++ ":" ++ symbol⟩] }

/-- `AddModule` (lines 389-478): query `QM_INFO` for the module (failure
aborts before the module is counted), append the module with an empty
`sym_array` (`num_syms = 0`, then `++num_modules`), run the grow-and-retry
`QM_SYMBOLS` loop (failure aborts, leaving the just-counted module with no
symbols in the table), then add every returned raw symbol to the last
module via `AddSymbol` (whose return value the C caller ignores). -/
def AddModule (svc : QueryService) (fuel : Nat) (symbol : String) (st : KState) :
    Bool × KState :=
  if st.have_modules then (true, st)
  else
    match svc.getInfo symbol with
    | none => (false, st)
    | some info =>
      let mp : Module := ⟨symbol, info.addr, info.size, []⟩
      match growQuery (svc.listSymbols symbol) 128 fuel with
      | none => (false, { st with modules := st.modules ++ [mp] })
      | some (Except.error _) => (false, { st with modules := st.modules ++ [mp] })
      | some (Except.ok raws) =>
        let mp1 := raws.foldl (fun m r => AddSymbol m r.value r.name) mp
        (true, { st with modules := st.modules ++ [mp1] })

/-- The `AddModule` loop of `InitMsyms` (lines 274-287): the buffer strings
are visited in service order; the first failing `AddModule` aborts,
keeping whatever state has accumulated. -/
def addAllModules (svc : QueryService) (fuel : Nat) :
    List String → KState → Bool × KState
  | [], st => (true, st)
  | name :: rest, st =>
    match AddModule svc fuel name st with
    | (true, st1) => addAllModules svc fuel rest st1
    | (false, st1) => (false, st1)

/-- `FreeModules` (lines 343-373): clear `have_modules`, release every
module and symbol, and reset `num_modules` to zero. -/
def FreeModules (_st : KState) : KState := ⟨[], false⟩

/-- The per-module sort step of `InitMsyms` (lines 291-300): modules with
fewer than two symbols are skipped, the rest have their `sym_array`
sorted by `qsort` with the `symsort` comparator (ascending `value`). -/
def sortModule (m : Module) : Module :=
  if m.syms.length < 2 then m else { m with syms := m.syms.insertionSort symLe }

/-- The tail of a successful `InitMsyms`: `have_modules = 1` followed by
the sort loop over every module. -/
def finalizeSort (st : KState) : KState :=
  ⟨st.modules.map sortModule, true⟩

/-- `InitMsyms` (lines 187-311): free the previous table, run the
grow-and-retry `QM_MODULES` query (non-`ENOSPC` failure returns 0), treat
zero reported modules as `return(0)` after an informational log, add each
module (any failure returns 0 with the accumulated state left in the
globals), then set `have_modules` and sort each module's symbols,
returning 1. -/
def InitMsyms (svc : QueryService) (fuel : Nat) (st : KState) : Bool × KState :=
  let st0 := FreeModules st
  match growQuery svc.listModules 32 fuel with
  | none => (false, st0)
  | some (Except.error _) => (false, st0)
  | some (Except.ok mods) =>
    if mods.length = 0 then (false, st0)
    else
      match addAllModules svc fuel mods st0 with
      | (false, st1) => (false, st1)
      | (true, st1) => (true, finalizeSort st1)

/-- The caller-supplied result struct of `LookupModuleSymbol`
(`struct symbol` from ksyms.h): its `offset` and `size` fields. -/
structure Symbol where
  offset : Nat
  size : Nat
deriving DecidableEq, Repr

/-- The symbol scan of `LookupModuleSymbol` (lines 587-599), after the
first element has been taken as `last`: walk the remaining entries; the
first `cur` with `cur.value > value` is a match for the pair
`(last, cur)`; otherwise `last` advances to `cur`. -/
def scanFrom (value : Nat) : SymT → List SymT → Option (SymT × SymT)
  | _, [] => none
  | last, cur :: rest =>
    if value < cur.value then some (last, cur) else scanFrom value cur rest

/-- The symbol scan of `LookupModuleSymbol` (lines 587-599): starts at
`nsym = 1` with `last = &sym_array[0]`, so modules with fewer than two
symbols never match. -/
def scanSyms (syms : List SymT) (value : Nat) : Option (SymT × SymT) :=
  match syms with
  | [] => none
  | first :: rest => scanFrom value first rest

/-- The end-of-module bound `module_info.addr + module.size * 4096`
computed in 32-bit unsigned arithmetic (lines 616-618). -/
def endAddr (m : Module) : Nat := (m.addr + m.size * 4096) % W

/-- One module's worth of `LookupModuleSymbol` (lines 579-662): first the
symbol scan (a match fills `offset = value - last->value`,
`size = cur->value - last->value` and returns `last->name`); failing
that, the inclusive range check `addr <= value && value <= addr +
size * 4096`; inside the range, a module with at least one symbol anchors
on its last symbol (`offset = value - last->value`, `size = end - value`),
and a module with no symbols returns its bare name
(`offset = value - addr`, `size = size * 4096`). -/
def moduleLookup (m : Module) (value : Nat) : Option (String × Symbol) :=
  match scanSyms m.syms value with
  | some (last, cur) =>
    some (last.name, ⟨usub value last.value, usub cur.value last.value⟩)
  | none =>
    if m.addr ≤ value ∧ value ≤ endAddr m then
      match m.syms.getLast? with
      | some last => some (last.name, ⟨usub value last.value, usub (endAddr m) value⟩)
      | none => some (m.name, ⟨usub value m.addr, m.size * 4096 % W⟩)
    else none

/-- The module loop of `LookupModuleSymbol` (lines 579-662): modules are
tried in table order and the first match wins. -/
def lookupMods (value : Nat) : List Module → Option (String × Symbol)
  | [] => none
  | m :: rest =>
    match moduleLookup m value with
    | some r => some r
    | none => lookupMods value rest

/-- `LookupModuleSymbol` (lines 559-666): zero the caller's result struct
(ignoring whatever it held, `symIn`), return no match when `num_modules`
is zero, otherwise run the module loop; a miss leaves the zeroed struct
and returns `NULL` (modelled as `none`). -/
def LookupModuleSymbol (st : KState) (value : Nat) (_symIn : Symbol) :
    Option String × Symbol :=
  let zeroed : Symbol := ⟨0, 0⟩
  if st.modules.length = 0 then (none, zeroed)
  else
    match lookupMods value st.modules with
    | some (n, r) => (some n, r)
    | none => (none, zeroed)

/-! ### Arithmetic helper lemmas -/

lemma W_pos : 0 < W := by norm_num [W]

lemma usub_eq_sub {a b : Nat} (hba : b ≤ a) (haW : a < W) : usub a b = a - b := by
  have hbW : b < W := Nat.lt_of_le_of_lt hba haW
  unfold usub
  rw [Nat.mod_eq_of_lt haW, Nat.mod_eq_of_lt hbW]
  have h1 : a + W - b = a - b + W := by omega
  rw [h1, Nat.add_mod_right, Nat.mod_eq_of_lt (by omega)]

lemma endAddr_eq {m : Module} (h : m.addr + m.size * 4096 < W) :
    endAddr m = m.addr + m.size * 4096 :=
  Nat.mod_eq_of_lt h

/-! ### Scan helper lemmas -/

lemma chainLe_append : ∀ (xs : List SymT) (a b : SymT) (rest : List SymT),
    List.Chain' symLe (a :: (xs ++ b :: rest)) → a.value ≤ b.value
  | [], _, _, _, h => (List.chain'_cons.mp h).1
  | x :: xs, a, b, rest, h => by
    have h1 := List.chain'_cons.mp h
    exact Nat.le_trans h1.1 (chainLe_append xs x b rest h1.2)

lemma scanFrom_bracket (v : Nat) : ∀ (xs : List SymT) (a prev cur : SymT) (ys : List SymT),
    List.Chain' symLe (a :: (xs ++ prev :: cur :: ys)) →
    prev.value ≤ v → v < cur.value →
    scanFrom v a (xs ++ prev :: cur :: ys) = some (prev, cur)
  | [], a, prev, cur, ys, _, h1, h2 => by
    show scanFrom v a (prev :: cur :: ys) = _
    simp only [scanFrom]
    rw [if_neg (by omega), if_pos h2]
  | x :: xs, a, prev, cur, ys, hch, h1, h2 => by
    have h3 := List.chain'_cons.mp hch
    have hx : x.value ≤ prev.value := chainLe_append xs x prev (cur :: ys) h3.2
    show scanFrom v a (x :: (xs ++ prev :: cur :: ys)) = _
    simp only [scanFrom]
    rw [if_neg (by omega)]
    exact scanFrom_bracket v xs x prev cur ys h3.2 h1 h2

lemma scanSyms_bracket (v : Nat) (xs : List SymT) (prev cur : SymT) (ys : List SymT)
    (hch : List.Chain' symLe (xs ++ prev :: cur :: ys))
    (h1 : prev.value ≤ v) (h2 : v < cur.value) :
    scanSyms (xs ++ prev :: cur :: ys) v = some (prev, cur) := by
  cases xs with
  | nil =>
    show scanSyms (prev :: cur :: ys) v = _
    simp only [scanSyms, scanFrom]
    rw [if_pos h2]
  | cons x xs =>
    show scanSyms (x :: (xs ++ prev :: cur :: ys)) v = _
    simp only [scanSyms]
    exact scanFrom_bracket v xs x prev cur ys hch h1 h2

lemma scanFrom_none (v : Nat) : ∀ (l : List SymT) (a : SymT),
    (∀ s ∈ l, s.value ≤ v) → scanFrom v a l = none
  | [], _, _ => rfl
  | cur :: rest, a, h => by
    have hcur : cur.value ≤ v := h cur (List.mem_cons_self cur rest)
    simp only [scanFrom]
    rw [if_neg (by omega)]
    exact scanFrom_none v rest cur fun s hs => h s (List.mem_cons_of_mem _ hs)

lemma scanFrom_inv (v : Nat) : ∀ (l : List SymT) (a p c : SymT),
    a.value ≤ v → scanFrom v a l = some (p, c) → p.value ≤ v ∧ v < c.value
  | [], _, _, _, _, h => by simp [scanFrom] at h
  | cur :: rest, a, p, c, ha, h => by
    simp only [scanFrom] at h
    by_cases hv : v < cur.value
    · rw [if_pos hv] at h
      obtain ⟨rfl, rfl⟩ : a = p ∧ cur = c := by
        constructor <;> [exact congrArg Prod.fst (Option.some.inj h);
          exact congrArg Prod.snd (Option.some.inj h)]
      exact ⟨ha, hv⟩
    · rw [if_neg hv] at h
      exact scanFrom_inv v rest cur p c (by omega) h

/-! ### Module-loop helper lemmas -/

lemma lookupMods_pre (v : Nat) : ∀ (pre rest : List Module),
    (∀ m ∈ pre, moduleLookup m v = none) →
    lookupMods v (pre ++ rest) = lookupMods v rest
  | [], _, _ => rfl
  | m :: pre, rest, h => by
    show lookupMods v (m :: (pre ++ rest)) = _
    simp only [lookupMods, h m (List.mem_cons_self m pre)]
    exact lookupMods_pre v pre rest fun m' hm' => h m' (List.mem_cons_of_mem _ hm')

lemma lookupMods_none (v : Nat) : ∀ (mods : List Module),
    (∀ m ∈ mods, moduleLookup m v = none) → lookupMods v mods = none
  | [], _ => rfl
  | m :: mods, h => by
    simp only [lookupMods, h m (List.mem_cons_self m mods)]
    exact lookupMods_none v mods fun m' hm' => h m' (List.mem_cons_of_mem _ hm')

lemma LookupModuleSymbol_of_mod (st : KState) (v : Nat) (s0 : Symbol)
    (pre post : List Module) (m : Module) (n : String) (r : Symbol)
    (hmods : st.modules = pre ++ m :: post)
    (hpre : ∀ m' ∈ pre, moduleLookup m' v = none)
    (hm : moduleLookup m v = some (n, r)) :
    LookupModuleSymbol st v s0 = (some n, r) := by
  have hlen : ¬ st.modules.length = 0 := by rw [hmods]; simp
  have hlm : lookupMods v st.modules = some (n, r) := by
    rw [hmods, lookupMods_pre v pre _ hpre]
    simp only [lookupMods, hm]
  simp only [LookupModuleSymbol, if_neg hlen, hlm]

/-! ### Concrete fixtures used by witnesses and counterexamples -/

/-- The worked example of the specification: module `usb_core`, base
`0x1000`, one 4096-byte page, symbols `init` at `0x1000` and `probe` at
`0x1200`. -/
def mGood : Module :=
  ⟨"usb_core", 4096, 1, [⟨4096, "usb_core:init"⟩, ⟨4608, "usb_core:probe"⟩]⟩

/-- A one-module table holding `mGood`, as built by a successful
`InitMsyms`. -/
def stGood : KState := ⟨[mGood], true⟩

/-! ### C1 -/

/-- C1: in a sorted (built) catalog, for the first module that resolves the
address and any adjacent symbol pair `(prev, cur)` bracketing the address
(`prev.value ≤ v < cur.value`), `LookupModuleSymbol` returns `prev`'s
qualified name with `offset = v - prev.value` and
`size = cur.value - prev.value`. -/
theorem C1_bracket_correct (st : KState) (v : Nat) (s0 : Symbol)
    (pre post : List Module) (m : Module)
    (xs ys : List SymT) (prev cur : SymT)
    (hmods : st.modules = pre ++ m :: post)
    (hpre : ∀ m' ∈ pre, moduleLookup m' v = none)
    (hsyms : m.syms = xs ++ prev :: cur :: ys)
    (hch : List.Chain' symLe m.syms)
    (h1 : prev.value ≤ v) (h2 : v < cur.value)
    (hvW : v < W) (hcurW : cur.value < W) :
    LookupModuleSymbol st v s0 =
      (some prev.name, ⟨v - prev.value, cur.value - prev.value⟩) := by
  have hscan : scanSyms m.syms v = some (prev, cur) := by
    rw [hsyms]
    exact scanSyms_bracket v xs prev cur ys (hsyms ▸ hch) h1 h2
  have hm : moduleLookup m v =
      some (prev.name, ⟨v - prev.value, cur.value - prev.value⟩) := by
    simp only [moduleLookup, hscan]
    rw [usub_eq_sub h1 hvW, usub_eq_sub (Nat.le_trans h1 (Nat.le_of_lt h2)) hcurW]
  exact LookupModuleSymbol_of_mod st v s0 pre post m _ _ hmods hpre hm

/-- C1 witness: `Resolve(0x1100)` on the spec's `usb_core` example yields
`("usb_core:init", 0x100, 0x200)`. -/
theorem C1_witness :
    LookupModuleSymbol stGood 4352 ⟨0, 0⟩ = (some "usb_core:init", ⟨256, 512⟩) :=
  C1_bracket_correct stGood 4352 ⟨0, 0⟩ [] [] mGood [] []
    ⟨4096, "usb_core:init"⟩ ⟨4608, "usb_core:probe"⟩ rfl
    (fun m' hm' => absurd hm' (List.not_mem_nil m'))
    rfl (by simp [mGood, List.chain'_cons, symLe])
    (by decide) (by decide) (by decide) (by decide)

/-! ### C4 -/

/-- A module whose first symbol lies above the probed address 5. -/
def mC4 : Module := ⟨"m", 0, 1, [⟨10, "m:a"⟩, ⟨20, "m:b"⟩]⟩

/-- C4 counterexample: at address 5 the scan of `mC4` (symbols at 10 and
20) does return a match, yet `prev.value = 10 > 5`, so the claimed bound
`prev.address ≤ address` fails and the returned offset is the wrapped
value `2^32 - 5`, not a non-negative difference. -/
theorem C4_counterexample :
    scanSyms mC4.syms 5 = some (⟨10, "m:a"⟩, ⟨20, "m:b"⟩) ∧
      ¬ (10 : Nat) ≤ 5 ∧
      (LookupModuleSymbol ⟨[mC4], true⟩ 5 ⟨0, 0⟩).2.offset = 2 ^ 32 - 5 := by
  refine ⟨rfl, by decide, ?_⟩
  decide

/-- C4 (amended): whenever the step-1 scan returns a match for a module
whose FIRST symbol address is ≤ the queried address, the matched pair
brackets the address (`prev.value ≤ v < cur.value`), so the offset
`v - prev.value` is a genuine non-negative difference; without that
proviso the scan can match with `prev.value > v` and a wrapped offset. -/
theorem C4_scan_bracket (v : Nat) (first : SymT) (rest : List SymT) (prev cur : SymT)
    (hfirst : first.value ≤ v)
    (hscan : scanSyms (first :: rest) v = some (prev, cur)) :
    prev.value ≤ v ∧ v < cur.value :=
  scanFrom_inv v rest first prev cur hfirst hscan

/-- C4 witness: the scan of the `usb_core` example at `0x1100` matches the
pair `(init, probe)` and indeed `0x1000 ≤ 0x1100 < 0x1200`. -/
theorem C4_witness : (4096 : Nat) ≤ 4352 ∧ 4352 < 4608 :=
  C4_scan_bracket 4352 ⟨4096, "usb_core:init"⟩ [⟨4608, "usb_core:probe"⟩]
    ⟨4096, "usb_core:init"⟩ ⟨4608, "usb_core:probe"⟩ (by decide) rfl

/-! ### C5 -/

/-- A module with no symbols, base 4096, one page: its half-open range is
`[4096, 8192)`. -/
def mC5 : Module := ⟨"nomod", 4096, 1, []⟩

/-- C5 counterexample: address 8192 is the exact end boundary of `mC5`,
bracketed by no symbol pair and inside no module's half-open range, yet
`LookupModuleSymbol` matches the module (the C range check is `<=`,
inclusive) instead of returning absence. -/
theorem C5_counterexample :
    ¬ 8192 < mC5.addr + mC5.size * 4096 ∧
      scanSyms mC5.syms 8192 = none ∧
      (LookupModuleSymbol ⟨[mC5], true⟩ 8192 ⟨0, 0⟩).1 = some "nomod" := by
  refine ⟨by decide, rfl, ?_⟩
  decide

/-- C5 (amended): `LookupModuleSymbol` returns absence (with a zeroed
result struct) exactly when no module's symbol scan matches and the
address lies in no module's CLOSED range
`[addr, addr + size * 4096]` — the end check is inclusive, so an address
equal to a module's end boundary matches that module rather than
missing. -/
theorem C5_miss (st : KState) (v : Nat) (s0 : Symbol)
    (h : ∀ m ∈ st.modules,
      scanSyms m.syms v = none ∧ ¬ (m.addr ≤ v ∧ v ≤ endAddr m)) :
    LookupModuleSymbol st v s0 = (none, ⟨0, 0⟩) := by
  have hnone : ∀ m ∈ st.modules, moduleLookup m v = none := by
    intro m hm
    obtain ⟨hscan, hrange⟩ := h m hm
    simp only [moduleLookup, hscan, if_neg hrange]
  by_cases hlen : st.modules.length = 0
  · simp only [LookupModuleSymbol, if_pos hlen]
  · simp only [LookupModuleSymbol, if_neg hlen, lookupMods_none v st.modules hnone]

/-- C5 witness: address 9000 is beyond the `usb_core` example's closed
range `[4096, 8192]` and unmatched by its scan, so resolution misses and
the stale input struct `⟨3, 4⟩` comes back zeroed. -/
theorem C5_witness : LookupModuleSymbol stGood 9000 ⟨3, 4⟩ = (none, ⟨0, 0⟩) :=
  C5_miss stGood 9000 ⟨3, 4⟩ (by decide)

/-! ### C6 -/

/-- C6: for the first module that resolves the address, if the module has
a last symbol `sn` with `sn.value ≤ v`, the symbol scan found no
enclosing pair, and `v` lies in the module's half-open range, then
`LookupModuleSymbol` anchors on `sn`: it returns `sn`'s qualified name
with `offset = v - sn.value` and `size = addr + size * 4096 - v`, the
remaining distance to the module's end. -/
theorem C6_tail_fallback (st : KState) (v : Nat) (s0 : Symbol)
    (pre post : List Module) (m : Module) (sn : SymT)
    (hmods : st.modules = pre ++ m :: post)
    (hpre : ∀ m' ∈ pre, moduleLookup m' v = none)
    (hlast : m.syms.getLast? = some sn)
    (hscan : scanSyms m.syms v = none)
    (hsn : sn.value ≤ v)
    (hlo : m.addr ≤ v) (hhi : v < m.addr + m.size * 4096)
    (hW : m.addr + m.size * 4096 < W) :
    LookupModuleSymbol st v s0 =
      (some sn.name, ⟨v - sn.value, m.addr + m.size * 4096 - v⟩) := by
  have hend := endAddr_eq (m := m) hW
  have hvW : v < W := by omega
  have hm : moduleLookup m v =
      some (sn.name, ⟨v - sn.value, m.addr + m.size * 4096 - v⟩) := by
    simp only [moduleLookup, hscan, hlast]
    rw [if_pos ⟨hlo, by rw [hend]; omega⟩]
    rw [usub_eq_sub hsn hvW, hend, usub_eq_sub (by omega) (by omega)]
  exact LookupModuleSymbol_of_mod st v s0 pre post m _ _ hmods hpre hm

/-- C6 witness: `Resolve(0x1300)` on the spec's `usb_core` example yields
`("usb_core:probe", 0x100, 0xD00)` — the tail fallback. -/
theorem C6_witness :
    LookupModuleSymbol stGood 4864 ⟨0, 0⟩ = (some "usb_core:probe", ⟨256, 3328⟩) :=
  C6_tail_fallback stGood 4864 ⟨0, 0⟩ [] [] mGood ⟨4608, "usb_core:probe"⟩
    rfl (fun m' hm' => absurd hm' (List.not_mem_nil m'))
    rfl rfl (by decide) (by decide) (by decide) (by decide)

/-! ### C7 -/

/-- C7: for the first module that resolves the address, if the module has
no symbols and `v` lies in its half-open range, `LookupModuleSymbol`
returns the bare module name with `offset = v - addr` and
`size = size * 4096`. -/
theorem C7_bare_module (st : KState) (v : Nat) (s0 : Symbol)
    (pre post : List Module) (m : Module)
    (hmods : st.modules = pre ++ m :: post)
    (hpre : ∀ m' ∈ pre, moduleLookup m' v = none)
    (hsyms : m.syms = [])
    (hlo : m.addr ≤ v) (hhi : v < m.addr + m.size * 4096)
    (hW : m.addr + m.size * 4096 < W) :
    LookupModuleSymbol st v s0 = (some m.name, ⟨v - m.addr, m.size * 4096⟩) := by
  have hend := endAddr_eq (m := m) hW
  have hvW : v < W := by omega
  have hm : moduleLookup m v = some (m.name, ⟨v - m.addr, m.size * 4096⟩) := by
    simp only [moduleLookup, hsyms, scanSyms, List.getLast?_nil]
    rw [if_pos ⟨hlo, by rw [hend]; omega⟩]
    rw [usub_eq_sub hlo hvW, Nat.mod_eq_of_lt (by omega)]
  exact LookupModuleSymbol_of_mod st v s0 pre post m _ _ hmods hpre hm

/-- C7 witness: address 4196 inside the symbol-less module `nomod`
(base 4096, one page) resolves to the bare name with offset 100 and size
4096. -/
theorem C7_witness :
    LookupModuleSymbol ⟨[mC5], true⟩ 4196 ⟨0, 0⟩ = (some "nomod", ⟨100, 4096⟩) :=
  C7_bare_module ⟨[mC5], true⟩ 4196 ⟨0, 0⟩ [] [] mC5
    rfl (fun m' hm' => absurd hm' (List.not_mem_nil m'))
    rfl (by decide) (by decide) (by decide)

/-! ### C10 -/

/-- C10: `LookupModuleSymbol` zeroes the caller's result struct before
searching, so whenever it returns absence the struct holds
`offset = 0, size = 0` regardless of the stale values it held on entry. -/
theorem C10_zero_on_miss (st : KState) (v : Nat) (s0 : Symbol)
    (h : (LookupModuleSymbol st v s0).1 = none) :
    (LookupModuleSymbol st v s0).2 = ⟨0, 0⟩ := by
  by_cases hlen : st.modules.length = 0
  · simp only [LookupModuleSymbol, if_pos hlen]
  · simp only [LookupModuleSymbol, if_neg hlen] at h ⊢
    cases hc : lookupMods v st.modules with
    | none => simp [hc]
    | some nr =>
      rw [hc] at h
      cases nr
      simp at h

/-- C10 witness: a miss on an empty table hands back `⟨0, 0⟩` even though
the struct held the stale values `⟨5, 7⟩`. -/
theorem C10_witness : (LookupModuleSymbol ⟨[], false⟩ 0 ⟨5, 7⟩).2 = ⟨0, 0⟩ :=
  C10_zero_on_miss ⟨[], false⟩ 0 ⟨5, 7⟩ rfl

/-! ### C8 -/

lemma growQuery_reaches {β : Type} (q : Nat → QRes β) (N : Nat) (r : β)
    (hlow : ∀ c, c < N → q c = QRes.nospc)
    (hhigh : ∀ c, N ≤ c → q c = QRes.ok r) :
    ∀ (f s : Nat), N ≤ 2 * s * 2 ^ f → growQuery q s (f + 1) = some (Except.ok r)
  | 0, s, hN => by
    have hs : N ≤ s + s := by
      have h0 : 2 * s * 2 ^ 0 = s + s := by ring
      omega
    simp only [growQuery]
    rw [hhigh (s + s) hs]
  | f + 1, s, hN => by
    by_cases hs : N ≤ s + s
    · simp only [growQuery]
      rw [hhigh (s + s) hs]
    · simp only [growQuery]
      rw [hlow (s + s) (by omega)]
      refine growQuery_reaches q N r hlow hhigh f (s + s) ?_
      have h0 : 2 * (s + s) * 2 ^ f = 2 * s * 2 ^ (f + 1) := by
        rw [pow_succ]; ring
      omega

/-- C8: the grow-and-retry loop doubles the buffer each round; a service
failing with a non-capacity error on the first call (at the doubled seed,
64) aborts immediately with a query failure, and a service that succeeds
at every capacity ≥ N (reporting "buffer too small" below N) is
eventually satisfied with some finite fuel. -/
theorem C8_growth_retry {α β : Type} (q1 : Nat → QRes α) (q2 : Nat → QRes β)
    (N : Nat) (r : β)
    (h1 : q1 64 = QRes.err)
    (hlow : ∀ c, c < N → q2 c = QRes.nospc)
    (hhigh : ∀ c, N ≤ c → q2 c = QRes.ok r) :
    growQuery q1 32 1 = some (Except.error ()) ∧
      ∃ fuel, growQuery q2 32 fuel = some (Except.ok r) := by
  constructor
  · simp only [growQuery]
    rw [show (32 + 32 : Nat) = 64 from rfl, h1]
  · refine ⟨N + 1, growQuery_reaches q2 N r hlow hhigh N 32 ?_⟩
    have h2 := Nat.lt_two_pow N
    omega

/-- A service variant that always fails hard. -/
def qErrSvc : Nat → QRes Nat := fun _ => QRes.err

/-- A service variant satisfied exactly at capacities of at least 100. -/
def qCapSvc : Nat → QRes Nat := fun c => if 100 ≤ c then QRes.ok 7 else QRes.nospc

/-- C8 witness: the always-failing service aborts on the first round and
the capacity-100 service is eventually satisfied. -/
theorem C8_witness :
    growQuery qErrSvc 32 1 = some (Except.error ()) ∧
      ∃ fuel, growQuery qCapSvc 32 fuel = some (Except.ok 7) :=
  C8_growth_retry qErrSvc qCapSvc 100 7 rfl
    (fun c hc => by simp only [qCapSvc]; rw [if_neg (by omega)])
    (fun c hc => by simp only [qCapSvc]; rw [if_pos hc])

/-! ### C3 -/

/-- A query service reporting that zero modules are loaded. -/
def svcEmpty : QueryService :=
  ⟨fun _ => QRes.ok [], fun _ => none, fun _ _ => QRes.err⟩

/-- C3 counterexample: on a service reporting zero modules, `InitMsyms`
returns 0 — the documented FAILURE value ("A false value indicates that
something went wrong") — not success as the claim states. -/
theorem C3_counterexample : (InitMsyms svcEmpty 1 ⟨[], false⟩).1 = false := rfl

/-- C3 (amended): when the module-list query reports zero modules,
`InitMsyms` logs an informational message and returns the FAILURE value 0
(not success); the table is nevertheless left empty, and every subsequent
`LookupModuleSymbol` against it returns absence with a zeroed result. -/
theorem C3_empty_catalog (svc : QueryService) (fuel : Nat) (st : KState)
    (v : Nat) (s0 : Symbol)
    (h : growQuery svc.listModules 32 fuel = some (Except.ok [])) :
    (InitMsyms svc fuel st).1 = false ∧
      (InitMsyms svc fuel st).2.modules = [] ∧
      LookupModuleSymbol (InitMsyms svc fuel st).2 v s0 = (none, ⟨0, 0⟩) := by
  have hI : InitMsyms svc fuel st = (false, ⟨[], false⟩) := by
    simp only [InitMsyms, FreeModules, h]
    rfl
  rw [hI]
  exact ⟨rfl, rfl, rfl⟩

/-- C3 witness: the zero-module service gives a failed build, an empty
table, and an address that resolves to absence. -/
theorem C3_witness :
    (InitMsyms svcEmpty 1 ⟨[], false⟩).1 = false ∧
      (InitMsyms svcEmpty 1 ⟨[], false⟩).2.modules = [] ∧
      LookupModuleSymbol (InitMsyms svcEmpty 1 ⟨[], false⟩).2 4352 ⟨1, 2⟩ =
        (none, ⟨0, 0⟩) :=
  C3_empty_catalog svcEmpty 1 ⟨[], false⟩ 4352 ⟨1, 2⟩ rfl

/-! ### C2 -/

/-- A query service whose metadata query succeeds for module `"a"` (base
4096, one page, one symbol `init`) and fails for module `"b"`. -/
def svcTorn : QueryService :=
  ⟨fun _ => QRes.ok ["a", "b"],
   fun n => if n = "a" then some ⟨4096, 1⟩ else none,
   fun _ _ => QRes.ok [⟨4096, "init"⟩]⟩

/-- C2: evaluation at the failing input.  The metadata query for module
`"b"` fails, so the build aborts with the failure value — but module
`"a"`, added before the failure, remains in the global table
(`num_modules` was already incremented and the failure path frees only
the scratch buffers), and `LookupModuleSymbol` — which checks
`num_modules`, never `have_modules` — happily resolves an address in
`"a"`'s range against this torn catalog, contradicting the fail-fast /
no-partial-publication contract. -/
theorem C2_failed_build_still_resolves :
    (InitMsyms svcTorn 1 ⟨[], false⟩).1 = false ∧
      (InitMsyms svcTorn 1 ⟨[], false⟩).2.have_modules = false ∧
      (LookupModuleSymbol (InitMsyms svcTorn 1 ⟨[], false⟩).2 4196 ⟨0, 0⟩).1 =
        some "a:init" :=
  ⟨rfl, rfl, rfl⟩

/-! ### C9 -/

lemma chain'_of_short : ∀ (l : List SymT), l.length < 2 → List.Chain' symLe l
  | [], _ => List.chain'_nil
  | [a], _ => List.chain'_singleton a
  | _ :: _ :: _, h => by simp at h; omega

lemma sortModule_chain (m : Module) : List.Chain' symLe (sortModule m).syms := by
  by_cases h : m.syms.length < 2
  · simp only [sortModule, if_pos h]
    exact chain'_of_short m.syms h
  · simp only [sortModule, if_neg h]
    exact (List.sorted_insertionSort symLe m.syms).chain'

/-- C9: after `InitMsyms` returns success, every module of the resulting
table has its symbols sorted ascending by address — adjacent entries
satisfy `symbols[i].value ≤ symbols[i+1].value`, vacuously so for modules
with fewer than two symbols (which the sort loop skips). -/
theorem C9_sorted_after_build (svc : QueryService) (fuel : Nat) (st st' : KState)
    (h : InitMsyms svc fuel st = (true, st'))
    (m : Module) (hm : m ∈ st'.modules) : List.Chain' symLe m.syms := by
  simp only [InitMsyms, FreeModules] at h
  split at h
  · exact absurd h (by simp)
  · exact absurd h (by simp)
  · split at h
    · exact absurd h (by simp)
    · split at h
      · exact absurd h (by simp)
      · injection h with h1 h2
        subst h2
        simp only [finalizeSort, List.mem_map] at hm
        obtain ⟨m0, -, rfl⟩ := hm
        exact sortModule_chain m0

/-- A query service delivering one module, `usb_core`, whose symbols come
back in descending address order so the sort step is exercised. -/
def svcGood : QueryService :=
  ⟨fun _ => QRes.ok ["usb_core"], fun _ => some ⟨4096, 1⟩,
   fun _ _ => QRes.ok [⟨4608, "probe"⟩, ⟨4096, "init"⟩]⟩

/-- C9 witness: the module built from `svcGood` (whose service reported
its symbols in descending order) ends up with ascending symbols. -/
theorem C9_witness : List.Chain' symLe mGood.syms :=
  C9_sorted_after_build svcGood 1 ⟨[], false⟩ (InitMsyms svcGood 1 ⟨[], false⟩).2
    rfl mGood (by decide)

end Ksym
